import Mathlib

/-!
Verification of the table column-resize delta calculator
(`ephox.snooker.calc.Deltas` together with its `ColumnContext`
classification) from the snooker table-editing engine.

Widths, steps and the minimum width are JavaScript numbers used as
integers by the algorithm, so they are embedded as `Int`.  The column
index argument is an arbitrary integer (JavaScript performs no bounds
check), so it is also an `Int`; the indices carried inside a
`ColumnContext` value are list positions and are embedded as `Nat`
(every constructor is only ever built with non-negative components).
-/

namespace Snooker

/-- Five-way positional classification of a column index.
Modelled from the spec: the `ColumnContext` module itself
(None/Only/Left/Middle/Right tagged variants with a fold-style
eliminator) is not part of the sampled sources; its constructors and
`fold` are reconstructed from their use in `Deltas.js` and §3 of the
specification. -/
inductive ColumnContext where
  | none : ColumnContext
  | only (index : Nat) : ColumnContext
  | left (index next : Nat) : ColumnContext
  | middle (prev index next : Nat) : ColumnContext
  | right (prev index : Nat) : ColumnContext
deriving DecidableEq, Repr

/-- The fold (case analysis) eliminator of `ColumnContext`, mirroring
`context.fold(onNone, onOnly, onLeft, onMiddle, onRight)`. -/
def ColumnContext.fold {α : Type} (c : ColumnContext) (onNone : α)
    (onOnly : Nat → α) (onLeft : Nat → Nat → α)
    (onMiddle : Nat → Nat → Nat → α) (onRight : Nat → Nat → α) : α :=
  match c with
  | ColumnContext.none => onNone
  | ColumnContext.only i => onOnly i
  | ColumnContext.left i n => onLeft i n
  | ColumnContext.middle p i n => onMiddle p i n
  | ColumnContext.right p i => onRight p i

/-- `neighbours` from `Deltas.js`: based on the column index, identify
the context.  The guards are the source's `if` chain; in the `right`
and `middle` branches the source stores `index - 1`, `index`,
`index + 1`, which are non-negative there, so they are stored as the
corresponding `Nat` values. -/
def neighbours (input : List Int) (index : Int) : ColumnContext :=
  if input.length = 0 then ColumnContext.none
  else if input.length = 1 then ColumnContext.only 0
  else if index = 0 then ColumnContext.left 0 1
  else if index = (input.length : Int) - 1 then
    ColumnContext.right (index.toNat - 1) index.toNat
  else if 0 < index ∧ index < (input.length : Int) - 1 then
    ColumnContext.middle (index.toNat - 1) index.toNat (index.toNat + 1)
  else ColumnContext.none

/-- `zero` from `Deltas.js`: `Arr.map(array, Fun.constant(0))`. -/
def zeroList (array : List Int) : List Int :=
  array.map (fun _ => (0 : Int))

/-- `onChange` from `Deltas.js` (shared by the `Left` and `Middle`
branches): `result.slice(0, index)` is `take index`,
`result.slice(next + 1)` is `drop (next + 1)`, `result[i]` is
`getD i 0` (both branches only read in-range positions). -/
def onChange (result : List Int) (step min : Int) (index next : Nat) : List Int :=
  if 0 ≤ step then
    let newNext := max min (result.getD next 0 - step)
    zeroList (result.take index) ++ [step, newNext - result.getD next 0]
      ++ zeroList (result.drop (next + 1))
  else
    let newThis := max min (result.getD index 0 + step)
    let diffx := result.getD index 0 - newThis
    zeroList (result.take index) ++ [newThis - result.getD index 0, diffx]
      ++ zeroList (result.drop (next + 1))

/-- `determine` from `Deltas.js`: calculate the offsets to apply to
each column width based on a resize at column `column` of step `step`;
the minimum column width allowed is `min`.  The first line negates the
public step (`step = -step`). -/
def determine (input : List Int) (column step min : Int) : List Int :=
  let step := -step
  let result := input
  let context := neighbours input column
  ColumnContext.fold context
    (zeroList result)
    (fun index =>
      [max min (result.getD index 0 + step) - result.getD index 0])
    (fun index next => onChange result step min index next)
    (fun _ index next => onChange result step min index next)
    (fun _ index =>
      if 0 ≤ step then
        zeroList (result.take index) ++ [step]
      else
        let size := max min (result.getD index 0 + step)
        zeroList (result.take index) ++ [size - result.getD index 0])

/-! ### Helper lemmas about `zeroList` -/

theorem zeroList_length (l : List Int) : (zeroList l).length = l.length := by
  simp [zeroList]

theorem zeroList_getD (l : List Int) (j : Nat) : (zeroList l).getD j 0 = 0 := by
  induction l generalizing j with
  | nil => simp [zeroList]
  | cons x xs ih =>
    cases j with
    | zero => simp [zeroList]
    | succ j => exact ih j

theorem zeroList_sum (l : List Int) : (zeroList l).sum = 0 := by
  induction l with
  | nil => rfl
  | cons x xs ih =>
    show (0 : Int) + (zeroList xs).sum = 0
    rw [ih, add_zero]

theorem zeroList_eq_replicate (l : List Int) :
    zeroList l = List.replicate l.length 0 := by
  induction l with
  | nil => rfl
  | cons x xs ih =>
    show (0 : Int) :: zeroList xs = List.replicate (xs.length + 1) 0
    rw [ih, List.replicate_succ]

/-! ### Characterisation of `neighbours` on each guard of its `if` chain -/

theorem neighbours_nil (c : Int) : neighbours [] c = ColumnContext.none := rfl

theorem neighbours_only (input : List Int) (c : Int) (h : input.length = 1) :
    neighbours input c = ColumnContext.only 0 := by
  unfold neighbours
  rw [if_neg (by omega), if_pos h]

theorem neighbours_left (input : List Int) (h2 : 2 ≤ input.length) :
    neighbours input 0 = ColumnContext.left 0 1 := by
  unfold neighbours
  rw [if_neg (by omega), if_neg (by omega), if_pos rfl]

theorem neighbours_right (input : List Int) (h2 : 2 ≤ input.length) :
    neighbours input ((input.length : Int) - 1) =
      ColumnContext.right (input.length - 2) (input.length - 1) := by
  unfold neighbours
  rw [if_neg (by omega), if_neg (by omega), if_neg (by omega), if_pos rfl]
  congr 1 <;> omega

theorem neighbours_middle (input : List Int) (c : Int)
    (h0 : 0 < c) (hlt : c < (input.length : Int) - 1) :
    neighbours input c =
      ColumnContext.middle (c.toNat - 1) c.toNat (c.toNat + 1) := by
  unfold neighbours
  rw [if_neg (by omega), if_neg (by omega), if_neg (by omega), if_neg (by omega),
    if_pos ⟨h0, hlt⟩]

theorem neighbours_out (input : List Int) (c : Int) (h2 : 2 ≤ input.length)
    (h : c < 0 ∨ (input.length : Int) ≤ c) :
    neighbours input c = ColumnContext.none := by
  unfold neighbours
  rw [if_neg (by omega), if_neg (by omega), if_neg (by omega), if_neg (by omega),
    if_neg (by omega)]

/-! ### Reduction lemmas for `determine` on each context -/

theorem determine_one (w c s m : Int) :
    determine [w] c s m = [max m (w + -s) - w] := by
  unfold determine
  rw [neighbours_only [w] c rfl]
  rfl

theorem determine_left_middle (input : List Int) (c s m : Int)
    (h2 : 2 ≤ input.length) (hc0 : 0 ≤ c) (hlt : c < (input.length : Int) - 1) :
    determine input c s m = onChange input (-s) m c.toNat (c.toNat + 1) := by
  unfold determine
  rcases eq_or_lt_of_le hc0 with h | h
  · rw [← h, neighbours_left input h2]
    rfl
  · rw [neighbours_middle input c h hlt]
    rfl

theorem determine_right_eq (input : List Int) (s m : Int) (h2 : 2 ≤ input.length) :
    determine input ((input.length : Int) - 1) s m =
      if 0 ≤ -s then
        zeroList (input.take (input.length - 1)) ++ [-s]
      else
        zeroList (input.take (input.length - 1))
          ++ [max m (input.getD (input.length - 1) 0 + -s)
              - input.getD (input.length - 1) 0] := by
  unfold determine
  rw [neighbours_right input h2]
  rfl

theorem determine_none_eq (input : List Int) (c s m : Int)
    (hn : neighbours input c = ColumnContext.none) :
    determine input c s m = zeroList input := by
  unfold determine
  rw [hn]
  rfl

/-! ### Shape of the two `onChange` branches -/

theorem onChange_grow (result : List Int) (step m : Int) (i n : Nat)
    (h : 0 ≤ step) :
    onChange result step m i n =
      zeroList (result.take i)
        ++ [step, max m (result.getD n 0 - step) - result.getD n 0]
        ++ zeroList (result.drop (n + 1)) := by
  unfold onChange
  rw [if_pos h]

theorem onChange_shrink (result : List Int) (step m : Int) (i n : Nat)
    (h : step < 0) :
    onChange result step m i n =
      zeroList (result.take i)
        ++ [max m (result.getD i 0 + step) - result.getD i 0,
            result.getD i 0 - max m (result.getD i 0 + step)]
        ++ zeroList (result.drop (n + 1)) := by
  unfold onChange
  rw [if_neg (by omega)]

/-! ### `getD`, `length` and `sum` of the result shapes -/

theorem pair_getD (P S : List Int) (a b : Int) (j : Nat) :
    (zeroList P ++ [a, b] ++ zeroList S).getD j 0 =
      if j = P.length then a else if j = P.length + 1 then b else 0 := by
  have hP : (zeroList P).length = P.length := zeroList_length P
  rcases Nat.lt_trichotomy j P.length with hj | hj | hj
  · rw [if_neg (by omega), if_neg (by omega), List.append_assoc,
      List.getD_append _ _ _ _ (by omega), zeroList_getD]
  · subst hj
    rw [if_pos rfl, List.append_assoc, List.getD_append_right _ _ _ _ (by omega)]
    simp [hP]
  · rw [if_neg (by omega), List.append_assoc,
      List.getD_append_right _ _ _ _ (by omega), hP]
    by_cases hb : j = P.length + 1
    · rw [if_pos hb, show j - P.length = 1 by omega]
      rfl
    · rw [if_neg hb, show j - P.length = (j - P.length - 2) + 2 by omega]
      show (zeroList S).getD (j - P.length - 2) 0 = 0
      exact zeroList_getD S _

theorem single_getD (P : List Int) (a : Int) (j : Nat) :
    (zeroList P ++ [a]).getD j 0 = if j = P.length then a else 0 := by
  have hP : (zeroList P).length = P.length := zeroList_length P
  rcases Nat.lt_trichotomy j P.length with hj | hj | hj
  · rw [if_neg (by omega), List.getD_append _ _ _ _ (by omega), zeroList_getD]
  · subst hj
    rw [if_pos rfl, List.getD_append_right _ _ _ _ (by omega), hP]
    simp
  · rw [if_neg (by omega)]
    exact List.getD_eq_default _ _ (by simp [hP]; omega)

theorem pair_sum (P S : List Int) (a b : Int) :
    (zeroList P ++ [a, b] ++ zeroList S).sum = a + b := by
  rw [List.sum_append, List.sum_append, zeroList_sum, zeroList_sum]
  simp

theorem onChange_length (result : List Int) (step m : Int) (i n : Nat) :
    (onChange result step m i n).length =
      min i result.length + 2 + (result.length - (n + 1)) := by
  unfold onChange
  split <;> simp [zeroList] <;> omega

theorem determine_length (input : List Int) (c s m : Int) :
    (determine input c s m).length = input.length := by
  by_cases h0 : input.length = 0
  · rw [determine_none_eq input c s m]
    · exact zeroList_length input
    · unfold neighbours
      rw [if_pos h0]
  · by_cases h1 : input.length = 1
    · rw [show determine input c s m = [max m (input.getD 0 0 + -s) - input.getD 0 0] from ?_]
      · rw [h1]
        rfl
      · unfold determine
        rw [neighbours_only input c h1]
        rfl
    · have h2 : 2 ≤ input.length := by omega
      by_cases hlm : 0 ≤ c ∧ c < (input.length : Int) - 1
      · rw [determine_left_middle input c s m h2 hlm.1 hlm.2, onChange_length]
        have := hlm.2
        omega
      · by_cases hr : c = (input.length : Int) - 1
        · subst hr
          rw [determine_right_eq input s m h2]
          split <;> simp [zeroList] <;> omega
        · rw [determine_none_eq input c s m (neighbours_out input c h2 (by omega))]
          exact zeroList_length input

theorem replicate_concat_pair (a b : Nat) (n : Nat) (h : a + 2 + b = n) :
    List.replicate a (0 : Int) ++ [0, 0] ++ List.replicate b (0 : Int) =
      List.replicate n 0 := by
  subst h
  rw [show ([0, 0] : List Int) = List.replicate 2 0 from rfl,
    ← List.replicate_add, ← List.replicate_add]

theorem replicate_concat_single (a : Nat) (n : Nat) (h : a + 1 = n) :
    List.replicate a (0 : Int) ++ [0] = List.replicate n 0 := by
  subst h
  rw [show ([0] : List Int) = List.replicate 1 0 from rfl, ← List.replicate_add]

/-! ### Claims -/

/-- C1, counterexample: the claim states that `determine [w] 0 step min`
returns `[max min (w + step) - w]` with `step` the public drag-direction
argument; but `determine` negates the step before using it, so at
widths `[100]`, index `0`, step `10`, min `0` the code returns `[-10]`,
not `[max 0 (100 + 10) - 100] = [10]`. -/
theorem C1_counterexample :
    ¬ determine [100] 0 10 0 = [max 0 (100 + 10) - 100] := by decide

/-- C1, amended: for every integer `w`, every integer `step` and every
non-negative integer `min`, `determine [w] 0 step min` returns the
one-element sequence `[max min (w - step) - w]` (the internally negated
step: `w - step`, not the claim's `w + step`). -/
theorem C1_only_column (w s m : Int) (hm : 0 ≤ m) :
    determine [w] 0 s m = [max m (w - s) - w] := by
  rw [determine_one]
  congr 1

theorem C1_witness :
    (0 : Int) ≤ 10 ∧ determine [100] 0 10 10 = [max 10 (100 - 10) - 100] :=
  ⟨by decide, C1_only_column 100 10 10 (by decide)⟩

/-- C2: for every width sequence of length ≥ 2, every column index
with `0 ≤ index < length - 1` (classified Left or Middle), every
positive original step and non-negative min:
`delta_index = max(min, widths[index] - step) - widths[index]`,
`delta_(index+1) = -delta_index`, and the sum of all deltas is `0`
(total width preserved on this branch). -/
theorem C2_shrink_branch (ws : List Int) (i : Nat) (s m : Int)
    (h2 : 2 ≤ ws.length) (hi : i < ws.length - 1) (hs : 0 < s) (hm : 0 ≤ m) :
    (determine ws (i : Int) s m).getD i 0 =
      max m (ws.getD i 0 - s) - ws.getD i 0 ∧
    (determine ws (i : Int) s m).getD (i + 1) 0 =
      -((determine ws (i : Int) s m).getD i 0) ∧
    (determine ws (i : Int) s m).sum = 0 := by
  have hd : determine ws (i : Int) s m =
      zeroList (ws.take i)
        ++ [max m (ws.getD i 0 + -s) - ws.getD i 0,
            ws.getD i 0 - max m (ws.getD i 0 + -s)]
        ++ zeroList (ws.drop (i + 1 + 1)) := by
    rw [determine_left_middle ws (i : Int) s m h2 (by omega) (by omega),
      show ((i : Int)).toNat = i from Int.toNat_natCast i]
    exact onChange_shrink ws (-s) m i (i + 1) (by omega)
  have hlen : (ws.take i).length = i := by rw [List.length_take]; omega
  rw [hd]
  refine ⟨?_, ?_, ?_⟩
  · rw [pair_getD, hlen, if_pos rfl]
    omega
  · simp only [pair_getD, hlen]
    split_ifs <;> omega
  · rw [pair_sum]
    omega

theorem C2_witness :
    (2 ≤ ([100, 100] : List Int).length ∧ (0 : Nat) < ([100, 100] : List Int).length - 1 ∧
      (0 : Int) < 10 ∧ (0 : Int) ≤ 10) ∧
    ((determine [100, 100] ((0 : Nat) : Int) 10 10).getD 0 0 =
        max 10 (([100, 100] : List Int).getD 0 0 - 10) - ([100, 100] : List Int).getD 0 0 ∧
      (determine [100, 100] ((0 : Nat) : Int) 10 10).getD (0 + 1) 0 =
        -((determine [100, 100] ((0 : Nat) : Int) 10 10).getD 0 0) ∧
      (determine [100, 100] ((0 : Nat) : Int) 10 10).sum = 0) ∧
    determine [100, 100] 0 10 10 = [-10, 10] :=
  ⟨⟨by decide, by decide, by decide, by decide⟩,
   C2_shrink_branch [100, 100] 0 10 10 (by decide) (by decide) (by decide) (by decide),
   by decide⟩

/-- C3: for every width sequence of length ≥ 2, every column index with
`0 ≤ index < length - 1`, every non-positive original step `s` and
non-negative min: `delta_index = -s` exactly (uncapped), and
`delta_(index+1) = max(min, widths[index+1] + s) - widths[index+1]`;
the shortfall at the floor is not redistributed, so the delta sum can be
non-zero (witnessed concretely at `determine [100,100] 0 (-200) 50 = [200,-50]`). -/
theorem C3_grow_branch (ws : List Int) (i : Nat) (s m : Int)
    (h2 : 2 ≤ ws.length) (hi : i < ws.length - 1) (hs : s ≤ 0) (hm : 0 ≤ m) :
    (determine ws (i : Int) s m).getD i 0 = -s ∧
    (determine ws (i : Int) s m).getD (i + 1) 0 =
      max m (ws.getD (i + 1) 0 + s) - ws.getD (i + 1) 0 := by
  have hd : determine ws (i : Int) s m =
      zeroList (ws.take i)
        ++ [-s, max m (ws.getD (i + 1) 0 - -s) - ws.getD (i + 1) 0]
        ++ zeroList (ws.drop (i + 1 + 1)) := by
    rw [determine_left_middle ws (i : Int) s m h2 (by omega) (by omega),
      show ((i : Int)).toNat = i from Int.toNat_natCast i]
    exact onChange_grow ws (-s) m i (i + 1) (by omega)
  have hlen : (ws.take i).length = i := by rw [List.length_take]; omega
  rw [hd]
  constructor
  · rw [pair_getD, hlen, if_pos rfl]
  · rw [pair_getD, hlen, if_neg (by omega), if_pos rfl]
    omega

theorem C3_witness :
    (2 ≤ ([100, 100] : List Int).length ∧ (0 : Nat) < ([100, 100] : List Int).length - 1 ∧
      (-200 : Int) ≤ 0 ∧ (0 : Int) ≤ 50) ∧
    ((determine [100, 100] ((0 : Nat) : Int) (-200) 50).getD 0 0 = -(-200) ∧
      (determine [100, 100] ((0 : Nat) : Int) (-200) 50).getD (0 + 1) 0 =
        max 50 (([100, 100] : List Int).getD (0 + 1) 0 + -200)
          - ([100, 100] : List Int).getD (0 + 1) 0) ∧
    determine [100, 100] 0 (-200) 50 = [200, -50] ∧
    (determine [100, 100] 0 (-200) 50).sum ≠ 0 :=
  ⟨⟨by decide, by decide, by decide, by decide⟩,
   C3_grow_branch [100, 100] 0 (-200) 50 (by decide) (by decide) (by decide) (by decide),
   by decide, by decide⟩

/-- C4: `neighbours` implements exactly the five-case classification
contract: empty → None; one element → Only 0 (for any index);
index 0 with length > 1 → Left 0 1; index length-1 with length > 1 →
Right (length-2) (length-1); interior index → Middle (i-1) i (i+1). -/
theorem C4_classify_contract :
    (∀ c : Int, neighbours [] c = ColumnContext.none) ∧
    (∀ (ws : List Int) (c : Int), ws.length = 1 →
      neighbours ws c = ColumnContext.only 0) ∧
    (∀ ws : List Int, 1 < ws.length →
      neighbours ws 0 = ColumnContext.left 0 1) ∧
    (∀ ws : List Int, 1 < ws.length →
      neighbours ws ((ws.length : Int) - 1) =
        ColumnContext.right (ws.length - 2) (ws.length - 1)) ∧
    (∀ (ws : List Int) (i : Nat), 0 < i → i < ws.length - 1 →
      neighbours ws (i : Int) = ColumnContext.middle (i - 1) i (i + 1)) := by
  refine ⟨neighbours_nil, neighbours_only,
    fun ws h => neighbours_left ws (by omega),
    fun ws h => neighbours_right ws (by omega), ?_⟩
  intro ws i h0 hi
  rw [neighbours_middle ws (i : Int) (by omega) (by omega)]
  simp [Int.toNat_natCast]

theorem C4_witness :
    neighbours ([] : List Int) 5 = ColumnContext.none ∧
    neighbours [7] 3 = ColumnContext.only 0 ∧
    neighbours [4, 5, 6] 0 = ColumnContext.left 0 1 ∧
    neighbours [4, 5, 6] ((([4, 5, 6] : List Int).length : Int) - 1) =
      ColumnContext.right (([4, 5, 6] : List Int).length - 2)
        (([4, 5, 6] : List Int).length - 1) ∧
    neighbours [4, 5, 6] ((1 : Nat) : Int) = ColumnContext.middle (1 - 1) 1 (1 + 1) :=
  ⟨C4_classify_contract.1 5,
   C4_classify_contract.2.1 [7] 3 (by decide),
   C4_classify_contract.2.2.1 [4, 5, 6] (by decide),
   C4_classify_contract.2.2.2.1 [4, 5, 6] (by decide),
   C4_classify_contract.2.2.2.2 [4, 5, 6] 1 (by decide) (by decide)⟩

/-- C7: the delta sequence returned by `determine` always has the same
length as the input width sequence, and on the empty width sequence
`determine` returns the empty sequence regardless of index, step and min. -/
theorem C7_length_preserved :
    (∀ (ws : List Int) (c s m : Int), (determine ws c s m).length = ws.length) ∧
    (∀ c s m : Int, determine [] c s m = []) :=
  ⟨determine_length, fun _ _ _ => rfl⟩

/-- C9: `determine` is total in the column index: for a sequence of
length ≥ 2 and an index outside `[0, length-1]` the classification falls
through to None and the result is the all-zero sequence of input length;
for a length-1 sequence the index argument is ignored entirely. -/
theorem C9_totality :
    (∀ (ws : List Int) (c s m : Int), 2 ≤ ws.length →
      c < 0 ∨ (ws.length : Int) ≤ c →
      determine ws c s m = List.replicate ws.length 0) ∧
    (∀ w c s m : Int, determine [w] c s m = determine [w] 0 s m) := by
  constructor
  · intro ws c s m h2 hc
    rw [determine_none_eq ws c s m (neighbours_out ws c h2 hc),
      zeroList_eq_replicate]
  · intro w c s m
    rw [determine_one, determine_one]

theorem C9_witness :
    (2 ≤ ([4, 5] : List Int).length ∧
      determine [4, 5] 7 3 1 = List.replicate ([4, 5] : List Int).length 0) ∧
    determine [9] 42 3 1 = determine [9] 0 3 1 :=
  ⟨⟨by decide, C9_totality.1 [4, 5] 7 3 1 (by decide) (Or.inr (by decide))⟩,
   C9_totality.2 9 42 3 1⟩

/-- C5: floor invariants of `determine`. On the Left/Middle branch where
the next column is shrunk (original step ≤ 0), `widths[next] + delta_next
≥ min`; on the Left/Middle branch where column `i` is shrunk (original
step > 0) and on the Right shrink branch, `widths[i] + delta_i ≥ min`. -/
theorem C5_floor_invariants :
    (∀ (ws : List Int) (i : Nat) (s m : Int), 2 ≤ ws.length → i < ws.length - 1 →
      s ≤ 0 →
      m ≤ ws.getD (i + 1) 0 + (determine ws (i : Int) s m).getD (i + 1) 0) ∧
    (∀ (ws : List Int) (i : Nat) (s m : Int), 2 ≤ ws.length → i < ws.length - 1 →
      0 < s →
      m ≤ ws.getD i 0 + (determine ws (i : Int) s m).getD i 0) ∧
    (∀ (ws : List Int) (s m : Int), 2 ≤ ws.length → 0 < s →
      m ≤ ws.getD (ws.length - 1) 0 +
        (determine ws ((ws.length : Int) - 1) s m).getD (ws.length - 1) 0) := by
  refine ⟨?_, ?_, ?_⟩
  · intro ws i s m h2 hi hs
    have hlen : (ws.take i).length = i := by rw [List.length_take]; omega
    rw [determine_left_middle ws (i : Int) s m h2 (by omega) (by omega),
      show ((i : Int)).toNat = i from Int.toNat_natCast i,
      onChange_grow ws (-s) m i (i + 1) (by omega),
      pair_getD, hlen, if_neg (by omega), if_pos rfl]
    omega
  · intro ws i s m h2 hi hs
    have hlen : (ws.take i).length = i := by rw [List.length_take]; omega
    rw [determine_left_middle ws (i : Int) s m h2 (by omega) (by omega),
      show ((i : Int)).toNat = i from Int.toNat_natCast i,
      onChange_shrink ws (-s) m i (i + 1) (by omega),
      pair_getD, hlen, if_pos rfl]
    omega
  · intro ws s m h2 hs
    rw [determine_right_eq ws s m h2, if_neg (by omega), single_getD,
      List.length_take, if_pos (by omega)]
    omega

theorem C5_witness :
    (2 ≤ ([100, 100] : List Int).length ∧ (0 : Nat) < ([100, 100] : List Int).length - 1 ∧
      (-200 : Int) ≤ 0 ∧ (0 : Int) < 10) ∧
    (10 : Int) ≤ ([100, 100] : List Int).getD (0 + 1) 0 +
      (determine [100, 100] ((0 : Nat) : Int) (-200) 10).getD (0 + 1) 0 ∧
    (10 : Int) ≤ ([100, 100] : List Int).getD 0 0 +
      (determine [100, 100] ((0 : Nat) : Int) 150 10).getD 0 0 ∧
    (10 : Int) ≤ ([100, 100] : List Int).getD (([100, 100] : List Int).length - 1) 0 +
      (determine [100, 100] ((([100, 100] : List Int).length : Int) - 1) 150 10).getD
        (([100, 100] : List Int).length - 1) 0 :=
  ⟨⟨by decide, by decide, by decide, by decide⟩,
   C5_floor_invariants.1 [100, 100] 0 (-200) 10 (by decide) (by decide) (by decide),
   C5_floor_invariants.2.1 [100, 100] 0 150 10 (by decide) (by decide) (by decide),
   C5_floor_invariants.2.2 [100, 100] 150 10 (by decide) (by decide)⟩

/-- C6: frame property. For every width sequence, every column index
strictly between 0 and length-1 and every other position `j` (in range,
distinct from `index` and `index + 1`), the delta at `j` is exactly 0:
only positions `index` and `index + 1` may be non-zero. -/
theorem C6_frame (ws : List Int) (i : Nat) (s m : Int) (j : Nat)
    (h0 : 0 < i) (hi : i < ws.length - 1) (hj : j < ws.length)
    (hji : j ≠ i) (hjn : j ≠ i + 1) :
    (determine ws (i : Int) s m).getD j 0 = 0 := by
  have h2 : 2 ≤ ws.length := by omega
  have hlen : (ws.take i).length = i := by rw [List.length_take]; omega
  rw [determine_left_middle ws (i : Int) s m h2 (by omega) (by omega),
    show ((i : Int)).toNat = i from Int.toNat_natCast i]
  by_cases hstep : 0 ≤ -s
  · rw [onChange_grow ws (-s) m i (i + 1) hstep, pair_getD, hlen,
      if_neg hji, if_neg hjn]
  · rw [onChange_shrink ws (-s) m i (i + 1) (by omega), pair_getD, hlen,
      if_neg hji, if_neg hjn]

theorem C6_witness :
    ((0 : Nat) < 1 ∧ (1 : Nat) < ([3, 4, 5, 6] : List Int).length - 1 ∧
      (3 : Nat) < ([3, 4, 5, 6] : List Int).length ∧ (3 : Nat) ≠ 1 ∧ (3 : Nat) ≠ 1 + 1) ∧
    (determine [3, 4, 5, 6] ((1 : Nat) : Int) 7 2).getD 3 0 = 0 :=
  ⟨⟨by decide, by decide, by decide, by decide, by decide⟩,
   C6_frame [3, 4, 5, 6] 1 7 2 3 (by decide) (by decide) (by decide)
     (by decide) (by decide)⟩

/-- C8: right-edge asymmetry. For every width sequence of length ≥ 2,
index `length - 1` and non-positive original step `s`, the last column's
delta is exactly `-s` with no floor clipping applied, and every position
before it gets delta 0. -/
theorem C8_right_edge (ws : List Int) (s m : Int)
    (h2 : 2 ≤ ws.length) (hs : s ≤ 0) :
    (determine ws ((ws.length : Int) - 1) s m).getD (ws.length - 1) 0 = -s ∧
    ∀ j : Nat, j < ws.length - 1 →
      (determine ws ((ws.length : Int) - 1) s m).getD j 0 = 0 := by
  rw [determine_right_eq ws s m h2, if_pos (by omega)]
  constructor
  · rw [single_getD, List.length_take, if_pos (by omega)]
  · intro j hj
    rw [single_getD, List.length_take, if_neg (by omega)]

theorem C8_witness :
    (2 ≤ ([50, 50, 50] : List Int).length ∧ (-20 : Int) ≤ 0) ∧
    ((determine [50, 50, 50] ((([50, 50, 50] : List Int).length : Int) - 1) (-20) 10).getD
        (([50, 50, 50] : List Int).length - 1) 0 = -(-20) ∧
      ∀ j : Nat, j < ([50, 50, 50] : List Int).length - 1 →
        (determine [50, 50, 50] ((([50, 50, 50] : List Int).length : Int) - 1) (-20) 10).getD
          j 0 = 0) ∧
    determine [50, 50, 50] 2 (-20) 10 = [0, 0, 20] :=
  ⟨⟨by decide, by decide⟩,
   C8_right_edge [50, 50, 50] (-20) 10 (by decide) (by decide),
   by decide⟩

/-- C10: zero step is an identity only above the floor. For every width
sequence all of whose entries are ≥ min and every in-range column index,
`determine ws index 0 min` is the all-zero sequence; the hypothesis is
needed: at `determine [5,5] 0 0 10` a column below the floor is still
bumped up, so the result is not all-zero. -/
theorem C10_zero_step :
    (∀ (ws : List Int) (i : Nat) (m : Int), (∀ w ∈ ws, m ≤ w) → i < ws.length →
      determine ws (i : Int) 0 m = List.replicate ws.length 0) ∧
    determine [5, 5] 0 0 10 ≠ List.replicate 2 0 := by
  constructor
  · intro ws i m hmin hi
    by_cases h1 : ws.length = 1
    · rcases List.length_eq_one.mp h1 with ⟨w, rfl⟩
      rw [determine_one]
      have hw : m ≤ w := hmin w (by simp)
      rw [show max m (w + -0) - w = 0 by omega]
      rfl
    · have h2 : 2 ≤ ws.length := by omega
      by_cases hlm : i < ws.length - 1
      · rw [determine_left_middle ws (i : Int) 0 m h2 (by omega) (by omega),
          show ((i : Int)).toNat = i from Int.toNat_natCast i,
          onChange_grow ws (-0) m i (i + 1) (by omega)]
        have hw : m ≤ ws.getD (i + 1) 0 := by
          have h' : i + 1 < ws.length := by omega
          rw [List.getD_eq_getElem ws 0 h']
          exact hmin _ (List.getElem_mem h')
        rw [show max m (ws.getD (i + 1) 0 - -0) - ws.getD (i + 1) 0 = 0 by omega,
          show (-0 : Int) = 0 from rfl, zeroList_eq_replicate, zeroList_eq_replicate]
        apply replicate_concat_pair
        rw [List.length_take, List.length_drop]
        omega
      · rw [show ((i : Nat) : Int) = (ws.length : Int) - 1 by omega,
          determine_right_eq ws 0 m h2, if_pos (by omega),
          show (-0 : Int) = 0 from rfl, zeroList_eq_replicate]
        apply replicate_concat_single
        rw [List.length_take]
        omega
  · decide

theorem C10_witness :
    ((∀ w ∈ ([20, 30] : List Int), (10 : Int) ≤ w) ∧ (0 : Nat) < ([20, 30] : List Int).length) ∧
    determine [20, 30] ((0 : Nat) : Int) 0 10 = List.replicate ([20, 30] : List Int).length 0 :=
  ⟨⟨by decide, by decide⟩,
   C10_zero_step.1 [20, 30] 0 10 (by decide) (by decide)⟩

end Snooker

